import Mathlib

/-!
Verification of the forjj wire-protocol core against its specification.

Shallow embedding of:
- crates/forjj-storage/src/object_id.rs  (object identifiers, hex codec)
- crates/forjj-protocol/src/framing.rs   (length-prefixed frame codec)
- crates/forjj-protocol/src/messages.rs  (push status enumerations)

Byte streams are modelled as lists of natural numbers (each byte < 256);
Rust strings are modelled by their UTF-8 byte sequences, since the Rust
code operates on bytes (str::len counts bytes, hex::decode_to_slice
decodes bytes). Fallible operations return Except. Writing to a stream
is modelled by returning the list of bytes written; reading returns the
result together with the remaining (unconsumed) stream, so stream
position after an operation is observable.
-/

namespace Forjj

/-! ### Object identifiers (object_id.rs) -/

/-- Length of object IDs in bytes (`HASH_LEN` in object_id.rs). -/
def HASH_LEN : Nat := 32

/-- `ObjectId([u8; HASH_LEN])`: a content-addressed object identifier.
The 32-byte invariant is carried as a hypothesis where needed. -/
structure ObjectId where
  bytes : List Nat
deriving DecidableEq

/-- `ObjectIdError` from object_id.rs. -/
inductive ObjectIdError
  | InvalidLength (expected actual : Nat)
  | InvalidHexLength (expected actual : Nat)
  | InvalidHexCharacter
deriving DecidableEq

/-- Value of one hex digit byte, as accepted by `hex::decode_to_slice`:
digits 0-9, lowercase a-f and uppercase A-F. -/
def hexDigitVal (c : Nat) : Option Nat :=
  if 48 ≤ c ∧ c ≤ 57 then some (c - 48)
  else if 97 ≤ c ∧ c ≤ 102 then some (c - 87)
  else if 65 ≤ c ∧ c ≤ 70 then some (c - 55)
  else none

/-- `hex::decode_to_slice` on a byte sequence: consumes two hex digit
bytes per output byte, failing on any non-hex-digit byte or odd length. -/
def hexDecodeBytes : List Nat → Option (List Nat)
  | [] => some []
  | hi :: lo :: rest =>
    match hexDigitVal hi, hexDigitVal lo, hexDecodeBytes rest with
    | some h, some l, some bs => some ((16 * h + l) :: bs)
    | _, _, _ => none
  | [_] => none

/-- `ObjectId::from_hex`: rejects a byte length other than 64 with
`InvalidHexLength`, then decodes, mapping any decode failure to
`InvalidHexCharacter`. -/
def ObjectId.from_hex (hex : List Nat) : Except ObjectIdError ObjectId :=
  if hex.length ≠ HASH_LEN * 2 then
    .error (.InvalidHexLength (HASH_LEN * 2) hex.length)
  else
    match hexDecodeBytes hex with
    | some bs => .ok ⟨bs⟩
    | none => .error .InvalidHexCharacter

/-- Lowercase hex digit byte for a value < 16 (as `hex::encode` emits). -/
def hexDigitChar (d : Nat) : Nat :=
  if d < 10 then 48 + d else 87 + d

/-- `hex::encode` on a byte list: two lowercase hex digit bytes per byte. -/
def hexEncodeBytes : List Nat → List Nat
  | [] => []
  | b :: rest => hexDigitChar (b / 16) :: hexDigitChar (b % 16) :: hexEncodeBytes rest

/-- `ObjectId::to_hex`: lowercase hex rendering of the raw bytes. -/
def ObjectId.to_hex (id : ObjectId) : List Nat :=
  hexEncodeBytes id.bytes

/-- ASCII uppercasing of a byte, used to state case-insensitivity of
hex parsing (the uppercase form of a rendered identifier). -/
def asciiToUpper (c : Nat) : Nat :=
  if 97 ≤ c ∧ c ≤ 122 then c - 32 else c

/-- Whether a byte is a lowercase hex digit (digit 0-9 or letter a-f). -/
def isLowerHexByte (c : Nat) : Prop :=
  (48 ≤ c ∧ c ≤ 57) ∨ (97 ≤ c ∧ c ≤ 102)

instance (c : Nat) : Decidable (isLowerHexByte c) := by
  unfold isLowerHexByte
  infer_instance

/-! Type aliases from object_id.rs ("Type aliases for semantic clarity"):
`pub type CommitId = ObjectId;` and so on. Rust `type` introduces a
transparent alias, mirrored here by `abbrev`. -/

abbrev CommitId := ObjectId
abbrev ChangeId := ObjectId
abbrev TreeId := ObjectId
abbrev FileId := ObjectId
abbrev SymlinkId := ObjectId
abbrev ConflictId := ObjectId
abbrev OperationId := ObjectId
abbrev ViewId := ObjectId

/-! ### Frame codec (framing.rs) -/

/-- `MAX_MESSAGE_SIZE`: maximum payload size, 16 MiB. -/
def MAX_MESSAGE_SIZE : Nat := 16 * 1024 * 1024

/-- `std::io::ErrorKind` values that arise in the codec. -/
inductive IoErrorKind
  | UnexpectedEofKind
  | InvalidData
deriving DecidableEq

/-- `FrameError` from framing.rs. The `IoErr` constructor embeds
`FrameError::Io(std::io::Error)`, carrying the error kind and message. -/
inductive FrameError
  | MessageTooLarge (size : Nat)
  | UnexpectedEof
  | IoErr (kind : IoErrorKind) (msg : String)
deriving DecidableEq

/-- Big-endian 4-byte encoding of a 32-bit value (`write_u32`). -/
def u32be (n : Nat) : List Nat :=
  [n / 16777216 % 256, n / 65536 % 256, n / 256 % 256, n % 256]

/-- `read_u32` on a byte stream: takes 4 bytes, big-endian; fails
(UnexpectedEof) when fewer than 4 bytes remain. -/
def read_u32be : List Nat → Option (Nat × List Nat)
  | b0 :: b1 :: b2 :: b3 :: rest =>
    some (((b0 * 256 + b1) * 256 + b2) * 256 + b3, rest)
  | _ => none

/-- `read_exact` into a buffer of size n: consumes exactly n bytes or
fails when the stream is shorter. -/
def readExact (s : List Nat) (n : Nat) : Option (List Nat × List Nat) :=
  if n ≤ s.length then some (s.take n, s.drop n) else none

/-- `write_frame`: computes `data.len() as u32` (hence the `% 2^32`
truncation of the cast), rejects lengths above `MAX_MESSAGE_SIZE`, and
otherwise writes the 4-byte big-endian length followed by the payload.
Returns the bytes written to the stream. -/
def write_frame (data : List Nat) : Except FrameError (List Nat) :=
  let len := data.length % 4294967296
  if len > MAX_MESSAGE_SIZE then .error (.MessageTooLarge len)
  else .ok (u32be len ++ data)

/-- `read_frame`: reads the 4-byte length (EOF there is the dedicated
`UnexpectedEof` error), rejects lengths above `MAX_MESSAGE_SIZE` without
touching the payload, then reads exactly `len` payload bytes (EOF there
surfaces as `FrameError::Io`, per the source's error mapping). Returns
the result together with the remaining stream. -/
def read_frame (s : List Nat) : Except FrameError (List Nat) × List Nat :=
  match read_u32be s with
  | none => (.error .UnexpectedEof, [])
  | some (len, rest) =>
    if len > MAX_MESSAGE_SIZE then (.error (.MessageTooLarge len), rest)
    else
      match readExact rest len with
      | some (payload, rest2) => (.ok payload, rest2)
      | none => (.error (.IoErr .UnexpectedEofKind "failed to fill whole buffer"), [])

/-- `read_frame_into`: like `read_frame` but with a caller-supplied
buffer; after the size-bound check, a declared length exceeding the
buffer capacity fails with an `InvalidData` I/O error before any payload
byte is read. Returns the payload read and the remaining stream. -/
def read_frame_into (s : List Nat) (capacity : Nat) :
    Except FrameError (List Nat) × List Nat :=
  match read_u32be s with
  | none => (.error .UnexpectedEof, [])
  | some (len, rest) =>
    if len > MAX_MESSAGE_SIZE then (.error (.MessageTooLarge len), rest)
    else if len > capacity then
      (.error (.IoErr .InvalidData "buffer too small"), rest)
    else
      match readExact rest len with
      | some (payload, rest2) => (.ok payload, rest2)
      | none => (.error (.IoErr .UnexpectedEofKind "failed to fill whole buffer"), [])

/-! ### Push status enumerations (messages.rs) -/

/-- `PushStatus` from messages.rs: overall status of a push. -/
inductive PushStatus
  | Ok
  | Rejected
  | Conflict
deriving DecidableEq

/-- `RefStatus` from messages.rs: status of a single reference update. -/
inductive RefStatus
  | Ok
  | Rejected
  | Stale
  | Conflict
deriving DecidableEq

/-- `RefResult` from messages.rs: result for a single reference update. -/
structure RefResult where
  ref_name : String
  status : RefStatus
  message : Option String

/-- Modelled from the spec: the repository declares the push message
types but contains no negotiation state machine computing an overall
status, so the severity order of §4.3 is modelled here: ok is least
severe, rejected and stale are more severe, conflict is most severe. -/
def refSeverity : RefStatus → Nat
  | .Ok => 0
  | .Rejected => 1
  | .Stale => 1
  | .Conflict => 2

/-- Modelled from the spec: how a per-reference status maps into the
overall status set of three values, with stale (fast-forward required)
reported as a rejection overall. -/
def refToPushStatus : RefStatus → PushStatus
  | .Ok => .Ok
  | .Rejected => .Rejected
  | .Stale => .Rejected
  | .Conflict => .Conflict

/-- Modelled from the spec: the more severe of two per-reference statuses. -/
def worstRef (a b : RefStatus) : RefStatus :=
  if refSeverity a < refSeverity b then b else a

/-- Modelled from the spec: the overall status of a push result is the
worst (most severe) per-reference status, mapped into the overall
status set; ok when every reference update is ok. -/
def overallPushStatus (results : List RefResult) : PushStatus :=
  refToPushStatus (results.foldl (fun acc r => worstRef acc r.status) RefStatus.Ok)

/-! ### Hex codec lemmas -/

theorem hexDigitVal_hexDigitChar (d : Nat) (h : d < 16) :
    hexDigitVal (hexDigitChar d) = some d := by
  interval_cases d <;> rfl

theorem hexDigitVal_upper_hexDigitChar (d : Nat) (h : d < 16) :
    hexDigitVal (asciiToUpper (hexDigitChar d)) = some d := by
  interval_cases d <;> rfl

theorem length_hexEncodeBytes (l : List Nat) :
    (hexEncodeBytes l).length = 2 * l.length := by
  induction l with
  | nil => rfl
  | cons b rest ih => simp [hexEncodeBytes, ih]; omega

theorem hexDecodeBytes_hexEncodeBytes (l : List Nat) (h : ∀ b ∈ l, b < 256) :
    hexDecodeBytes (hexEncodeBytes l) = some l := by
  induction l with
  | nil => rfl
  | cons b rest ih =>
    have hb : b < 256 := h b (List.mem_cons_self b rest)
    have hhi : b / 16 < 16 := by omega
    have hlo : b % 16 < 16 := by omega
    have hrest : hexDecodeBytes (hexEncodeBytes rest) = some rest :=
      ih (fun x hx => h x (List.mem_cons_of_mem b hx))
    simp [hexEncodeBytes, hexDecodeBytes, hexDigitVal_hexDigitChar _ hhi,
      hexDigitVal_hexDigitChar _ hlo, hrest]
    omega

theorem hexDecodeBytes_upper_hexEncodeBytes (l : List Nat) (h : ∀ b ∈ l, b < 256) :
    hexDecodeBytes ((hexEncodeBytes l).map asciiToUpper) = some l := by
  induction l with
  | nil => rfl
  | cons b rest ih =>
    have hb : b < 256 := h b (List.mem_cons_self b rest)
    have hhi : b / 16 < 16 := by omega
    have hlo : b % 16 < 16 := by omega
    have hrest : hexDecodeBytes ((hexEncodeBytes rest).map asciiToUpper) = some rest :=
      ih (fun x hx => h x (List.mem_cons_of_mem b hx))
    simp [hexEncodeBytes, hexDecodeBytes, hexDigitVal_upper_hexDigitChar _ hhi,
      hexDigitVal_upper_hexDigitChar _ hlo, hrest]
    omega

theorem isLowerHexByte_hexDigitChar (d : Nat) (h : d < 16) :
    isLowerHexByte (hexDigitChar d) := by
  interval_cases d <;> decide

theorem mem_hexEncodeBytes_lower (l : List Nat) (h : ∀ b ∈ l, b < 256) :
    ∀ c ∈ hexEncodeBytes l, isLowerHexByte c := by
  induction l with
  | nil => intro c hc; cases hc
  | cons b rest ih =>
    have hb : b < 256 := h b (List.mem_cons_self b rest)
    intro c hc
    simp only [hexEncodeBytes, List.mem_cons] at hc
    rcases hc with rfl | hc
    · exact isLowerHexByte_hexDigitChar _ (by omega)
    rcases hc with rfl | hc
    · exact isLowerHexByte_hexDigitChar _ (by omega)
    · exact ih (fun x hx => h x (List.mem_cons_of_mem b hx)) c hc

theorem hexDecodeBytes_some_all_hex :
    ∀ (s bs : List Nat), hexDecodeBytes s = some bs → ∀ c ∈ s, hexDigitVal c ≠ none
  | [], _, _ => by intro c hc; cases hc
  | [x], bs, h => by simp [hexDecodeBytes] at h
  | hi :: lo :: rest, bs, h => by
    intro c hc
    simp only [hexDecodeBytes] at h
    cases hhi : hexDigitVal hi <;> cases hlo : hexDigitVal lo <;>
      cases hr : hexDecodeBytes rest <;> simp [hhi, hlo, hr] at h
    simp only [List.mem_cons] at hc
    rcases hc with rfl | rfl | hc
    · simp [hhi]
    · simp [hlo]
    · exact hexDecodeBytes_some_all_hex rest _ hr c hc

/-! ### Claim theorems: object identifiers -/

/-- C4: Hex round trip — for every 32-byte object identifier id,
`ObjectId.from_hex (id.to_hex)` succeeds and returns an identifier
equal to id. -/
theorem C4_hex_round_trip (id : ObjectId) (h1 : id.bytes.length = HASH_LEN)
    (h2 : ∀ b ∈ id.bytes, b < 256) :
    ObjectId.from_hex (ObjectId.to_hex id) = .ok id := by
  unfold ObjectId.from_hex ObjectId.to_hex
  rw [length_hexEncodeBytes, h1]
  simp [HASH_LEN, hexDecodeBytes_hexEncodeBytes id.bytes h2]

theorem C4_hex_round_trip_witness :
    (ObjectId.mk (List.replicate 32 0)).bytes.length = HASH_LEN ∧
    (∀ b ∈ (ObjectId.mk (List.replicate 32 0)).bytes, b < 256) ∧
    ObjectId.from_hex (ObjectId.to_hex (ObjectId.mk (List.replicate 32 0))) =
      .ok (ObjectId.mk (List.replicate 32 0)) :=
  ⟨by decide, by decide, C4_hex_round_trip _ (by decide) (by decide)⟩

/-- C8: Malformed hex rejection — a byte string whose length is not 64
fails with `InvalidHexLength`; a byte string of length exactly 64
containing a non-hex-digit byte fails with `InvalidHexCharacter`. -/
theorem C8_malformed_hex (s t : List Nat) (hs : s.length ≠ 64)
    (ht : t.length = 64) (c : Nat) (hc : c ∈ t) (hcv : hexDigitVal c = none) :
    ObjectId.from_hex s = .error (.InvalidHexLength 64 s.length) ∧
    ObjectId.from_hex t = .error .InvalidHexCharacter := by
  constructor
  · unfold ObjectId.from_hex
    simp [HASH_LEN, hs]
  · have hdec : hexDecodeBytes t = none := by
      cases hd : hexDecodeBytes t with
      | none => rfl
      | some bs => exact absurd hcv (hexDecodeBytes_some_all_hex t bs hd c hc)
    unfold ObjectId.from_hex
    simp [HASH_LEN, ht, hdec]

theorem C8_malformed_hex_witness :
    ([] : List Nat).length ≠ 64 ∧ (List.replicate 64 103).length = 64 ∧
    103 ∈ List.replicate 64 103 ∧ hexDigitVal 103 = none ∧
    ObjectId.from_hex [] = .error (.InvalidHexLength 64 ([] : List Nat).length) ∧
    ObjectId.from_hex (List.replicate 64 103) = .error .InvalidHexCharacter := by
  have h := C8_malformed_hex [] (List.replicate 64 103) (by decide) (by decide)
    103 (by decide) (by decide)
  exact ⟨by decide, by decide, by decide, by decide, h.1, h.2⟩

/-- C10: hex parsing is case-insensitive — `from_hex` also succeeds on
the ASCII-uppercased form of `to_hex id` and returns id, even though
rendering always produces lowercase hex digit bytes. -/
theorem C10_hex_case_insensitive (id : ObjectId) (h1 : id.bytes.length = HASH_LEN)
    (h2 : ∀ b ∈ id.bytes, b < 256) :
    ObjectId.from_hex ((ObjectId.to_hex id).map asciiToUpper) = .ok id ∧
    ∀ c ∈ ObjectId.to_hex id, isLowerHexByte c := by
  constructor
  · unfold ObjectId.from_hex ObjectId.to_hex
    rw [List.length_map, length_hexEncodeBytes, h1]
    simp [HASH_LEN, hexDecodeBytes_upper_hexEncodeBytes id.bytes h2]
  · exact mem_hexEncodeBytes_lower id.bytes h2

theorem C10_hex_case_insensitive_witness :
    (ObjectId.mk (List.replicate 32 171)).bytes.length = HASH_LEN ∧
    (∀ b ∈ (ObjectId.mk (List.replicate 32 171)).bytes, b < 256) ∧
    (ObjectId.from_hex ((ObjectId.to_hex (ObjectId.mk (List.replicate 32 171))).map asciiToUpper) =
       .ok (ObjectId.mk (List.replicate 32 171)) ∧
     ∀ c ∈ ObjectId.to_hex (ObjectId.mk (List.replicate 32 171)), isLowerHexByte c) :=
  ⟨by decide, by decide, C10_hex_case_insensitive _ (by decide) (by decide)⟩

/-- C6 counterexample: the identifier specializations are not distinct
non-interchangeable types — `TreeId` and `OperationId` are the very same
type, and one concrete identifier value inhabits both. -/
theorem C6_alias_counterexample :
    TreeId = OperationId ∧
    (ObjectId.mk (List.replicate 32 0) : TreeId) =
      (ObjectId.mk (List.replicate 32 0) : OperationId) :=
  ⟨rfl, rfl⟩

/-- C6 (amended): the identifier specializations are transparent type
aliases of the single `ObjectId` type — structurally and nominally
identical and therefore interchangeable; the domain distinction is
documentation only. -/
theorem C6_aliases_eq_ObjectId :
    CommitId = ObjectId ∧ ChangeId = ObjectId ∧ TreeId = ObjectId ∧
    FileId = ObjectId ∧ OperationId = ObjectId ∧ ViewId = ObjectId :=
  ⟨rfl, rfl, rfl, rfl, rfl, rfl⟩

/-! ### Frame codec lemmas -/

theorem read_u32be_u32be (n : Nat) (rest : List Nat) (h : n < 4294967296) :
    read_u32be (u32be n ++ rest) = some (n, rest) := by
  simp [u32be, read_u32be]
  omega

theorem read_u32be_short (s : List Nat) (h : s.length < 4) :
    read_u32be s = none := by
  cases s with
  | nil => rfl
  | cons a t =>
    cases t with
    | nil => rfl
    | cons b t2 =>
      cases t2 with
      | nil => rfl
      | cons c t3 =>
        cases t3 with
        | nil => rfl
        | cons d t4 => exact absurd h (by simp)

/-! ### Claim theorems: frame codec -/

/-- C1: Frame round trip — for every payload p with length at most
16 MiB, writing p with `write_frame` and reading the produced bytes
back with `read_frame` returns exactly p, consuming exactly the frame
and leaving any following stream content untouched. -/
theorem C1_frame_round_trip (p extra : List Nat) (h : p.length ≤ MAX_MESSAGE_SIZE) :
    ∃ frame, write_frame p = .ok frame ∧ read_frame (frame ++ extra) = (.ok p, extra) := by
  have hM : MAX_MESSAGE_SIZE = 16777216 := rfl
  have hlt : p.length < 4294967296 := by omega
  have hmod : p.length % 4294967296 = p.length := Nat.mod_eq_of_lt hlt
  refine ⟨u32be p.length ++ p, ?_, ?_⟩
  · simp only [write_frame, hmod]
    rw [if_neg (Nat.not_lt.mpr h)]
  · rw [List.append_assoc]
    simp only [read_frame, read_u32be_u32be p.length (p ++ extra) hlt]
    rw [if_neg (Nat.not_lt.mpr h)]
    have hle : p.length ≤ (p ++ extra).length := by simp
    simp [readExact, hle, List.take_left, List.drop_left]

theorem C1_frame_round_trip_witness :
    ([7, 8] : List Nat).length ≤ MAX_MESSAGE_SIZE ∧
    ∃ frame, write_frame [7, 8] = .ok frame ∧
      read_frame (frame ++ [9]) = (.ok [7, 8], [9]) :=
  ⟨by decide, C1_frame_round_trip [7, 8] [9] (by decide)⟩

/-- C2 (code bug exhibit): `write_frame` computes the length with
`data.len() as u32`, which truncates; at a payload of 2^32 zero bytes
the truncated length 0 passes the size check, so `write_frame`
succeeds — writing a zero length prefix followed by the whole payload —
instead of failing with `MessageTooLarge` and writing nothing. -/
theorem C2_truncation_bug :
    write_frame (List.replicate 4294967296 0) =
      .ok (u32be 0 ++ List.replicate 4294967296 0) ∧
    ∀ sz, write_frame (List.replicate 4294967296 0) ≠
      .error (.MessageTooLarge sz) := by
  have hlen : (List.replicate 4294967296 (0 : Nat)).length = 4294967296 :=
    List.length_replicate _ _
  have hok : write_frame (List.replicate 4294967296 0) =
      .ok (u32be ((List.replicate 4294967296 (0 : Nat)).length % 4294967296) ++
        List.replicate 4294967296 0) := by
    simp only [write_frame]
    rw [if_neg (by rw [hlen]; decide)]
  rw [hlen, Nat.mod_self] at hok
  exact ⟨hok, fun sz hcontra => by rw [hok] at hcontra; cases hcontra⟩

/-- C3: Oversized frame header — when the first 4 stream bytes decode
to a big-endian length greater than 16 MiB, `read_frame` fails with
`MessageTooLarge` carrying that length, and the remaining stream is
exactly the input minus the 4 length bytes: no payload byte is read. -/
theorem C3_oversized_header (b0 b1 b2 b3 : Nat) (rest : List Nat)
    (_h0 : b0 < 256) (_h1 : b1 < 256) (_h2 : b2 < 256) (_h3 : b3 < 256)
    (hlen : ((b0 * 256 + b1) * 256 + b2) * 256 + b3 > MAX_MESSAGE_SIZE) :
    read_frame (b0 :: b1 :: b2 :: b3 :: rest) =
      (.error (.MessageTooLarge (((b0 * 256 + b1) * 256 + b2) * 256 + b3)), rest) ∧
    rest = (b0 :: b1 :: b2 :: b3 :: rest).drop 4 := by
  constructor
  · simp only [read_frame, read_u32be]
    rw [if_pos hlen]
  · rfl

theorem C3_oversized_header_witness :
    (255 : Nat) < 256 ∧
    ((((255 : Nat) * 256 + 255) * 256 + 255) * 256 + 255 > MAX_MESSAGE_SIZE) ∧
    (read_frame (255 :: 255 :: 255 :: 255 :: [7]) =
       (.error (.MessageTooLarge ((((255 : Nat) * 256 + 255) * 256 + 255) * 256 + 255)), [7]) ∧
     [7] = ((255 : Nat) :: 255 :: 255 :: 255 :: [7]).drop 4) :=
  ⟨by decide, by decide,
    C3_oversized_header 255 255 255 255 [7] (by decide) (by decide) (by decide)
      (by decide) (by decide)⟩

/-- C7: Clean EOF classification — when the stream ends before 4 length
bytes are available, `read_frame` fails with `UnexpectedEof`, a variant
distinct from the generic `Io` error variant. -/
theorem C7_clean_eof (s : List Nat) (h : s.length < 4) :
    (read_frame s).1 = .error .UnexpectedEof ∧
    ∀ k m, FrameError.UnexpectedEof ≠ FrameError.IoErr k m := by
  constructor
  · simp [read_frame, read_u32be_short s h]
  · intro k m heq
    cases heq

theorem C7_clean_eof_witness :
    ([1, 2] : List Nat).length < 4 ∧
    ((read_frame [1, 2]).1 = .error .UnexpectedEof ∧
     ∀ k m, FrameError.UnexpectedEof ≠ FrameError.IoErr k m) :=
  ⟨by decide, C7_clean_eof [1, 2] (by decide)⟩

/-- C9: Bounded-buffer receive — for a well-formed frame whose declared
length is within the 16 MiB bound but exceeds the buffer capacity,
`read_frame_into` fails with the I/O-category error (`InvalidData`,
"buffer too small"), and the remaining stream is exactly the payload
followed by the rest: only the 4 length bytes were consumed, so the
stream position is well defined for the caller. -/
theorem C9_bounded_buffer (payload extra : List Nat) (cap : Nat)
    (hlen : payload.length ≤ MAX_MESSAGE_SIZE) (hcap : cap < payload.length) :
    read_frame_into (u32be payload.length ++ (payload ++ extra)) cap =
      (.error (.IoErr .InvalidData "buffer too small"), payload ++ extra) := by
  have hM : MAX_MESSAGE_SIZE = 16777216 := rfl
  have hlt : payload.length < 4294967296 := by omega
  simp only [read_frame_into, read_u32be_u32be payload.length (payload ++ extra) hlt]
  rw [if_neg (Nat.not_lt.mpr hlen), if_pos hcap]

theorem C9_bounded_buffer_witness :
    ([1, 2] : List Nat).length ≤ MAX_MESSAGE_SIZE ∧ (1 : Nat) < ([1, 2] : List Nat).length ∧
    read_frame_into (u32be ([1, 2] : List Nat).length ++ ([1, 2] ++ [9])) 1 =
      (.error (.IoErr .InvalidData "buffer too small"), [1, 2] ++ [9]) :=
  ⟨by decide, by decide, C9_bounded_buffer [1, 2] [9] 1 (by decide) (by decide)⟩

/-! ### Push status lemmas -/

theorem refSeverity_worstRef_left (a b : RefStatus) :
    refSeverity a ≤ refSeverity (worstRef a b) := by
  unfold worstRef
  split <;> omega

theorem refSeverity_worstRef_right (a b : RefStatus) :
    refSeverity b ≤ refSeverity (worstRef a b) := by
  unfold worstRef
  split <;> omega

theorem worstRef_eq_or (a b : RefStatus) : worstRef a b = a ∨ worstRef a b = b := by
  unfold worstRef
  split
  · exact Or.inr rfl
  · exact Or.inl rfl

theorem foldl_worstRef_mem (l : List RefStatus) :
    ∀ a, l.foldl worstRef a = a ∨ l.foldl worstRef a ∈ l := by
  induction l with
  | nil => intro a; exact Or.inl rfl
  | cons x xs ih =>
    intro a
    simp only [List.foldl_cons]
    rcases ih (worstRef a x) with h | h
    · rw [h]
      rcases worstRef_eq_or a x with h2 | h2
      · exact Or.inl h2
      · exact Or.inr (by rw [h2]; exact List.mem_cons_self x xs)
    · exact Or.inr (List.mem_cons_of_mem x h)

theorem refSeverity_le_foldl (l : List RefStatus) :
    ∀ a, refSeverity a ≤ refSeverity (l.foldl worstRef a) := by
  induction l with
  | nil => intro a; exact Nat.le_refl _
  | cons x xs ih =>
    intro a
    simp only [List.foldl_cons]
    exact Nat.le_trans (refSeverity_worstRef_left a x) (ih (worstRef a x))

theorem foldl_worstRef_ub (l : List RefStatus) :
    ∀ a, ∀ r ∈ l, refSeverity r ≤ refSeverity (l.foldl worstRef a) := by
  induction l with
  | nil => intro a r hr; cases hr
  | cons x xs ih =>
    intro a r hr
    simp only [List.foldl_cons]
    rcases List.mem_cons.mp hr with rfl | hr
    · exact Nat.le_trans (refSeverity_worstRef_right a r)
        (refSeverity_le_foldl xs (worstRef a r))
    · exact ih (worstRef a x) r hr

theorem refSeverity_eq_zero (r : RefStatus) (h : refSeverity r = 0) :
    r = RefStatus.Ok := by
  cases r <;> first | rfl | simp [refSeverity] at h

theorem foldl_worstRef_all_ok (l : List RefStatus) (h : ∀ r ∈ l, r = RefStatus.Ok) :
    l.foldl worstRef RefStatus.Ok = RefStatus.Ok := by
  induction l with
  | nil => rfl
  | cons x xs ih =>
    have hx : x = RefStatus.Ok := h x (List.mem_cons_self x xs)
    subst hx
    simp only [List.foldl_cons]
    have hw : worstRef RefStatus.Ok RefStatus.Ok = RefStatus.Ok := rfl
    rw [hw]
    exact ih (fun r hr => h r (List.mem_cons_of_mem _ hr))

/-! ### Claim theorem: push status severity -/

/-- C5: Push status severity — for every non-empty per-reference result
vector, the overall push status equals the most severe per-reference
status mapped into the overall status set, and when every per-reference
status is ok the overall status is ok. -/
theorem C5_push_status_severity (results : List RefResult) (h : results ≠ []) :
    (∃ r ∈ results, (∀ q ∈ results, refSeverity q.status ≤ refSeverity r.status) ∧
      overallPushStatus results = refToPushStatus r.status) ∧
    ((∀ r ∈ results, r.status = RefStatus.Ok) →
      overallPushStatus results = PushStatus.Ok) := by
  have hfold : results.foldl (fun acc r => worstRef acc r.status) RefStatus.Ok
      = (results.map RefResult.status).foldl worstRef RefStatus.Ok := by
    rw [List.foldl_map]
  have hub : ∀ q ∈ results, refSeverity q.status ≤
      refSeverity ((results.map RefResult.status).foldl worstRef RefStatus.Ok) := by
    intro q hq
    exact foldl_worstRef_ub _ _ _ (List.mem_map_of_mem RefResult.status hq)
  constructor
  · rcases foldl_worstRef_mem (results.map RefResult.status) RefStatus.Ok with hcase | hcase
    · have hallzero : ∀ q ∈ results, refSeverity q.status = 0 := by
        intro q hq
        have hle := hub q hq
        rw [hcase] at hle
        simpa [refSeverity] using hle
      obtain ⟨r0, hr0⟩ : ∃ r, r ∈ results := by
        cases results with
        | nil => exact absurd rfl h
        | cons x xs => exact ⟨x, List.mem_cons_self x xs⟩
      refine ⟨r0, hr0, ?_, ?_⟩
      · intro q hq
        rw [hallzero q hq, hallzero r0 hr0]
      · have hr0ok : r0.status = RefStatus.Ok :=
          refSeverity_eq_zero _ (hallzero r0 hr0)
        unfold overallPushStatus
        rw [hfold, hcase, hr0ok]
    · obtain ⟨r, hr, hrs⟩ := List.mem_map.mp hcase
      refine ⟨r, hr, ?_, ?_⟩
      · intro q hq
        have hle := hub q hq
        rw [← hrs] at hle
        exact hle
      · unfold overallPushStatus
        rw [hfold, ← hrs]
  · intro hall
    unfold overallPushStatus
    rw [hfold, foldl_worstRef_all_ok]
    · rfl
    · intro s hs
      obtain ⟨q, hq, hqs⟩ := List.mem_map.mp hs
      rw [← hqs]
      exact hall q hq

theorem C5_push_status_severity_witness :
    ([⟨"a", RefStatus.Ok, none⟩, ⟨"b", RefStatus.Conflict, none⟩] : List RefResult) ≠ [] ∧
    ((∃ r ∈ ([⟨"a", RefStatus.Ok, none⟩, ⟨"b", RefStatus.Conflict, none⟩] : List RefResult),
        (∀ q ∈ ([⟨"a", RefStatus.Ok, none⟩, ⟨"b", RefStatus.Conflict, none⟩] : List RefResult),
          refSeverity q.status ≤ refSeverity r.status) ∧
        overallPushStatus [⟨"a", RefStatus.Ok, none⟩, ⟨"b", RefStatus.Conflict, none⟩] =
          refToPushStatus r.status) ∧
     ((∀ r ∈ ([⟨"a", RefStatus.Ok, none⟩, ⟨"b", RefStatus.Conflict, none⟩] : List RefResult),
        r.status = RefStatus.Ok) →
       overallPushStatus [⟨"a", RefStatus.Ok, none⟩, ⟨"b", RefStatus.Conflict, none⟩] =
         PushStatus.Ok)) :=
  ⟨List.cons_ne_nil _ _, C5_push_status_severity _ (List.cons_ne_nil _ _)⟩

end Forjj
